import Mathlib

/-
  Verification of the Temporal Event & Session Subsystem of the
  hackthon-backend repository, shallowly embedded from the source files
  src/delay-handler.js, src/memory-manager.js, src/unnamed/part_000 and
  src/unnamed/part_001.

  Modelling conventions:
  * A JavaScript `Map` is an association list kept in insertion order
    (JS Maps iterate in insertion order; `set` on an existing key keeps
    its position, `set` on a new key appends).
  * JS numbers (epoch milliseconds, second counts, counters) are `Int`.
  * Every function that reads the wall clock (`moment()`, `Date.now()`)
    takes the current instant as an explicit `now : Int` parameter.
  * `setTimeout` callbacks are modelled as explicit events (`fireReminder`
    applied by a scheduler step), and `uuidv4()` results are explicit
    parameters assumed fresh where relevant.
  * An `await`ed external call that can reject is modelled by an
    `Except String Unit` parameter giving the outcome seen by the caller.
-/

set_option maxHeartbeats 1000000

/-- Lookup in an association list, first binding wins (JS `Map.get`). -/
def mlookup {α : Type} (k : String) : List (String × α) → Option α
  | [] => none
  | p :: ps => if p.1 = k then some p.2 else mlookup k ps

/-- JS `Map.set`: replace in place when the key is present, append otherwise. -/
def mapSet {α : Type} (m : List (String × α)) (k : String) (v : α) :
    List (String × α) :=
  match mlookup k m with
  | some _ => m.map (fun p => if p.1 = k then (k, v) else p)
  | none => m ++ [(k, v)]

/-- JS `Map.delete`: drop every binding of the key. -/
def mapDelete {α : Type} : List (String × α) → String → List (String × α)
  | [], _ => []
  | p :: ps, k => if p.1 = k then mapDelete ps k else p :: mapDelete ps k

/-
  DelayTracker: embedding of src/delay-handler.js.
-/

/-- A delay record, from `createDelay` in src/delay-handler.js. -/
structure Delay where
  sessionId : String
  delaySeconds : Int
  startTime : Int
  endTime : Int
  isActive : Bool
deriving DecidableEq

/-- The `pendingDelays` map of src/delay-handler.js. -/
abbrev DMap : Type := List (String × Delay)

/-- Embedding of `createDelay(sessionId, delaySeconds)` (src/delay-handler.js:46-62).
The two `moment()` calls of the source are modelled as the single instant
`now`; `moment().add(delaySeconds, 'seconds').valueOf()` is
`now + delaySeconds * 1000`.  No validation of `delaySeconds` is performed. -/
def createDelay (m : DMap) (sessionId : String) (delaySeconds : Int) (now : Int) :
    Delay × DMap :=
  let delay : Delay :=
    { sessionId := sessionId, delaySeconds := delaySeconds, startTime := now,
      endTime := now + delaySeconds * 1000, isActive := true }
  (delay, mapSet m sessionId delay)

/-- Embedding of `hasActiveDelay(sessionId)` (src/delay-handler.js:65-85).  Returns the
answer and the possibly updated map (`now >= endTime` lazily flips
`isActive` to false and persists it). -/
def hasActiveDelay (m : DMap) (sessionId : String) (now : Int) : Bool × DMap :=
  match mlookup sessionId m with
  | none => (false, m)
  | some delay =>
    if delay.isActive = false then (false, m)
    else if delay.endTime ≤ now then
      (false, mapSet m sessionId { delay with isActive := false })
    else (true, m)

/-- Embedding of `getRemainingDelayTime(sessionId)` (src/delay-handler.js:88-108).
`Math.ceil((endTime - now) / 1000)` on the positive integer gap
`endTime - now` is `(gap + 999) / 1000` in natural-number division. -/
def getRemainingDelayTime (m : DMap) (sessionId : String) (now : Int) : Int × DMap :=
  match mlookup sessionId m with
  | none => (0, m)
  | some delay =>
    if delay.isActive = false then (0, m)
    else if delay.endTime ≤ now then
      (0, mapSet m sessionId { delay with isActive := false })
    else ((((delay.endTime - now).toNat + 999) / 1000 : Nat), m)

/-- Embedding of `clearDelay(sessionId)` (src/delay-handler.js:111-117). -/
def clearDelay (m : DMap) (sessionId : String) : Bool × DMap :=
  match mlookup sessionId m with
  | some _ => (true, mapDelete m sessionId)
  | none => (false, m)

/- Further definitions are appended here; all lemmas and claim theorems
   follow after the last definition. -/


/-
  TimeExpressionParser: embedding of the regular expressions of
  `processDelayInstructions` (src/delay-handler.js:8-43) and
  `checkForReminderRequests` (src/unnamed/part_001:157-187).

  The regexes of the source only combine literal text, `(\d+)`, a capturing
  or non-capturing alternation of literal words, an optional trailing `s?`,
  and a greedy `(.*)`.  `RItem` reifies exactly these constructs; matching
  backtracks in JS preference order (greedy quantifiers longest first,
  alternations left to right), and a whole-string search tries start
  positions left to right, as `String.prototype.match` does for a
  non-global, non-anchored regex.  All patterns carry the `/i` flag, hence
  comparisons lowercase both sides while captures keep the original text.
-/

inductive RItem where
  | lit (s : String)
  | digits
  | alts (ss : List String)
  | altsNC (ss : List String)
  | optS
  | rest

/-- Case-insensitive literal prefix stripping (the `/i` flag). -/
def stripPrefixCI : List Char → List Char → Option (List Char)
  | [], s => some s
  | _, [] => none
  | a :: as, b :: bs => if a.toLower = b.toLower then stripPrefixCI as bs else none

/-- Candidate ways one item can consume input, in JS preference order; each
candidate is an optional capture plus the remaining input. -/
def cands : RItem → List Char → List (Option String × List Char)
  | .lit t, s =>
    match stripPrefixCI t.data s with
    | some tail => [(none, tail)]
    | none => []
  | .digits, s =>
    let n := (s.takeWhile Char.isDigit).length
    ((List.range n).map (fun i => n - i)).map
      (fun k => (some (String.mk (s.take k)), s.drop k))
  | .alts ss, s =>
    ss.filterMap (fun a =>
      match stripPrefixCI a.data s with
      | some tail => some (some (String.mk (s.take a.length)), tail)
      | none => none)
  | .altsNC ss, s =>
    ss.filterMap (fun a =>
      match stripPrefixCI a.data s with
      | some tail => some ((none : Option String), tail)
      | none => none)
  | .optS, s =>
    match stripPrefixCI ['s'] s with
    | some tail => [(none, tail), (none, s)]
    | none => [(none, s)]
  | .rest, s =>
    ((List.range (s.length + 1)).map (fun i => s.length - i)).map
      (fun k => (some (String.mk (s.take k)), s.drop k))

def addCap (c : Option String) (caps : List String) : List String :=
  match c with
  | some cap => cap :: caps
  | none => caps

/-- Match a whole pattern at the start of the input, returning the captures
of the first (preference-ordered) successful match. -/
def matchItems : List RItem → List Char → Option (List String)
  | [], _ => some []
  | p :: ps, s =>
    (cands p s).findSome? (fun c => (matchItems ps c.2).map (addCap c.1))

/-- Leftmost search: the first start position admitting a match wins. -/
def searchFrom (pat : List RItem) : List Char → Option (List String)
  | [] => matchItems pat []
  | s@(_ :: t) =>
    match matchItems pat s with
    | some caps => some caps
    | none => searchFrom pat t

/-- Evaluation of `text.match(pattern)`, reduced to its list of captured groups. -/
def jsMatch (pat : List RItem) (text : String) : Option (List String) :=
  searchFrom pat text.data

/-- The `delayPatterns` table (src/delay-handler.js:10-16), in source order. -/
def delayPatterns : List (List RItem) :=
  [[.lit "wait for ", .digits, .lit " second", .optS],
   [.lit "delay ", .altsNC ["response", "reply"], .lit " by ", .digits,
    .lit " second", .optS],
   [.lit "pause for ", .digits, .lit " second", .optS],
   [.lit "hold for ", .digits, .lit " second", .optS],
   [.lit "wait ", .digits, .lit " second", .optS]]

/-- The `hinglishPatterns` table (src/delay-handler.js:19-23). -/
def hinglishPatterns : List (List RItem) :=
  [[.digits, .lit " second", .optS, .lit " wait karo"],
   [.digits, .lit " second", .optS, .lit " ke baad jawab do"],
   [.digits, .lit " second", .optS, .lit " ruko"]]

/-- The combined table `allPatterns = [...delayPatterns, ...hinglishPatterns]`. -/
def allDelayPatterns : List (List RItem) := delayPatterns ++ hinglishPatterns

/-- Evaluation of `parseInt` on the digit string captured by `(\d+)`. -/
def parseIntDigits (s : String) : Int :=
  ((s.data.foldl (fun n c => n * 10 + (c.toNat - Char.toNat '0')) 0 : Nat) : Int)

/-- Result shape of `processDelayInstructions`. -/
structure DelayParse where
  hasDelay : Bool
  delaySeconds : Int
deriving DecidableEq

/-- One iteration of the pattern loop: `text.match(pattern)` followed by the
`match && match[1]` truthiness test, yielding the first capture. -/
def delayCapture (pat : List RItem) (text : String) : Option String :=
  match jsMatch pat text with
  | some (g1 :: _) => if g1.isEmpty then none else some g1
  | _ => none

/-- Embedding of `processDelayInstructions(text)` (src/delay-handler.js:8-43): the first
matching pattern in table order wins; no match yields `hasDelay: false`,
`delaySeconds: 0`. -/
def processDelayInstructions (text : String) : DelayParse :=
  match allDelayPatterns.findSome? (fun pat => delayCapture pat text) with
  | some g1 => { hasDelay := true, delaySeconds := parseIntDigits g1 }
  | none => { hasDelay := false, delaySeconds := 0 }

/-- The unit alternation `(second|seconds|minute|minutes|hour|hours)`. -/
def unitAlternatives : List String :=
  ["second", "seconds", "minute", "minutes", "hour", "hours"]

/-- The regex `reminderPattern1` (src/unnamed/part_001:159). -/
def reminderPattern1 : List RItem :=
  [.lit "remind me in ", .digits, .lit " ", .alts unitAlternatives,
   .lit " to ", .rest]

/-- The regex `reminderPattern2` (src/unnamed/part_001:161). -/
def reminderPattern2 : List RItem :=
  [.digits, .lit " ", .alts unitAlternatives, .lit " ke baad yaad dila dena ",
   .rest]

/-- The regex `reminderPattern3` (src/unnamed/part_001:163). -/
def reminderPattern3 : List RItem :=
  [.digits, .lit " ", .alts unitAlternatives, .lit " baad ", .rest,
   .lit " yaad dila dena"]

/-- JS `toLowerCase`, acting on the character data. -/
def strToLower (s : String) : String := String.mk (s.data.map Char.toLower)

/-- Substring containment, as JS `String.prototype.includes`. -/
def containsSub (needle : List Char) : List Char → Bool
  | [] => needle.isEmpty
  | hay@(_ :: t) => needle.isPrefixOf hay || containsSub needle t

def strIncludes (hay needle : String) : Bool := containsSub needle.data hay.data

/-- The unit conversion of `checkForReminderRequests`
(src/unnamed/part_001:168-177): the caller lowercases the captured unit and
tests `includes('minute')` then `includes('hour')`. -/
def convertToSeconds (amount : Int) (unitLower : String) : Int :=
  if strIncludes unitLower "minute" then amount * 60
  else if strIncludes unitLower "hour" then amount * 60 * 60
  else amount

/-- Result shape the spec calls `parseReminder`. -/
structure ReminderParse where
  hasReminder : Bool
  durationSeconds : Int
  task : String
deriving DecidableEq

/-- The parsing logic of `checkForReminderRequests`
(src/unnamed/part_001:157-187), which the spec calls `parseReminder`:
`message.match(p1) || message.match(p2) || message.match(p3)`, then
`parseInt(match[1])`, `match[2].toLowerCase()` and `match[3]`. -/
def parseReminder (message : String) : ReminderParse :=
  match (jsMatch reminderPattern1 message).orElse (fun _ =>
        (jsMatch reminderPattern2 message).orElse (fun _ =>
          jsMatch reminderPattern3 message)) with
  | some (g1 :: g2 :: g3 :: _) =>
    { hasReminder := true,
      durationSeconds := convertToSeconds (parseIntDigits g1) (strToLower g2),
      task := g3 }
  | _ => { hasReminder := false, durationSeconds := 0, task := "" }


/-
  ReminderScheduler: embedding of `timeContextManager` in
  src/unnamed/part_000 (lines 44-164).
-/

/-- A reminder record, from `setReminder` (src/unnamed/part_000:87-97).
The `timeoutId` handle is modelled by explicit `fireReminder` events. -/
structure Reminder where
  id : String
  sessionId : String
  userId : String
  task : String
  createdAt : Int
  reminderTime : Int
  durationInSeconds : Int
  isCompleted : Bool
  wasTriggered : Bool
deriving DecidableEq

/-- The `activeReminders` map. -/
abbrev RMap : Type := List (String × Reminder)

/-- Embedding of `setReminder(sessionId, userId, task, durationInSeconds, callback)`
(src/unnamed/part_000:80-123).  In the source, `now.add(durationInSeconds,
'seconds')` mutates `now` in place and returns the same moment object, so
`createdAt` and `reminderTime` are BOTH the shifted instant
`now + durationInSeconds * 1000`.  `reminderId` stands for the fresh
`uuidv4()`; `now` is the instant `moment()` was called.  The
`setTimeout(..., durationInSeconds * 1000)` body is `fireReminder` below,
scheduled `durationInSeconds` after this call. -/
def setReminder (m : RMap) (sessionId userId task : String)
    (durationInSeconds : Int) (reminderId : String) (now : Int) :
    Reminder × RMap :=
  let shifted := now + durationInSeconds * 1000
  let reminder : Reminder :=
    { id := reminderId, sessionId := sessionId, userId := userId, task := task,
      createdAt := shifted, reminderTime := shifted,
      durationInSeconds := durationInSeconds,
      isCompleted := false, wasTriggered := false }
  (reminder, mapSet m reminderId reminder)

/-- The body of the `setTimeout` callback of `setReminder`
(src/unnamed/part_000:103-116): if the reminder still exists and is not
completed, flip `wasTriggered`, persist, and invoke the `onTrigger`
callback with the updated record.  The second component is the argument of
that invocation (`none` when the callback is not invoked). -/
def fireReminder (m : RMap) (reminderId : String) : RMap × Option Reminder :=
  match mlookup reminderId m with
  | some r =>
    if r.isCompleted = false then
      let r2 := { r with wasTriggered := true }
      (mapSet m reminderId r2, some r2)
    else (m, none)
  | none => (m, none)

/-- Embedding of `getPendingReminders(sessionId)` (src/unnamed/part_000:126-140). -/
def getPendingReminders (m : RMap) (sessionId : String) (now : Int) :
    List Reminder :=
  (m.map Prod.snd).filter (fun r =>
    decide (r.sessionId = sessionId) && !r.isCompleted &&
      decide (r.reminderTime ≤ now) && r.wasTriggered)

/-- Embedding of `completeReminder(reminderId)` (src/unnamed/part_000:143-151). -/
def completeReminder (m : RMap) (reminderId : String) : Bool × RMap :=
  match mlookup reminderId m with
  | some r => (true, mapSet m reminderId { r with isCompleted := true })
  | none => (false, m)

/-- Embedding of `clearSessionReminders(sessionId)` (src/unnamed/part_000:154-163):
cancels the pending timer and deletes every record of the session (a later
`fireReminder` event for a deleted id finds no record and does nothing). -/
def clearSessionReminders (m : RMap) (sessionId : String) : RMap :=
  match m with
  | [] => []
  | p :: ps =>
    if p.2.sessionId = sessionId then clearSessionReminders ps sessionId
    else p :: clearSessionReminders ps sessionId

/-- Scheduler events on the reminder store: a `setReminder` call, the firing
of a scheduled timeout, a `completeReminder` call, a `clearSessionReminders`
call. -/
inductive ROp where
  | setR (sessionId userId task : String) (durationInSeconds : Int)
         (reminderId : String) (now : Int)
  | fire (reminderId : String)
  | complete (reminderId : String)
  | clearS (sessionId : String)

/-- One scheduler step; the second component is the `onTrigger` invocation
the step performs, if any. -/
def rStepOut (m : RMap) : ROp → RMap × Option Reminder
  | .setR sid uid task d rid now => ((setReminder m sid uid task d rid now).2, none)
  | .fire rid => fireReminder m rid
  | .complete rid => ((completeReminder m rid).2, none)
  | .clearS sid => (clearSessionReminders m sid, none)

/-- Run a sequence of scheduler events, collecting every `onTrigger`
invocation made along the way. -/
def rRunOut : RMap → List ROp → RMap × List Reminder
  | m, [] => (m, [])
  | m, op :: ops =>
    let s := rStepOut m op
    let rest := rRunOut s.1 ops
    (rest.1, s.2.toList ++ rest.2)

/-- Whether an event is a `setReminder` call allocating the given id. -/
def setsId (rid : String) : ROp → Prop
  | .setR _ _ _ _ r _ => r = rid
  | _ => False

/-- Every stored reminder record is keyed by its own `id` field (holds by
construction: `setReminder` stores the record under `reminderId`). -/
def KeysOk (m : RMap) : Prop := ∀ p ∈ m, p.2.id = p.1

/-
  SessionRegistry: embedding of `sessionManager` in src/unnamed/part_000
  (lines 324-435) and, for `endSessionQ`, the variant in
  src/memory-manager.js (lines 169-269).
-/

/-- A session record (src/unnamed/part_000:331-338).  The stored
`timeContext` snapshot is modelled by its timestamp; the derived display
fields (iso, readableTime, dayOfWeek, timeOfDay) are pure functions of it.
The memory-manager.js variant stores the same record minus `timeContext`. -/
structure Session where
  userId : String
  startTime : Int
  lastActiveTime : Int
  interactions : Int
  memoryIds : List String
  timeContext : Int
deriving DecidableEq

/-- The `activeSessions` map. -/
abbrev SMap : Type := List (String × Session)

/-- Return value of `createSession`. -/
structure CreateResult where
  sessionId : String
  startTime : Int
  timeContext : Int
deriving DecidableEq

/-- Embedding of `createSession(userId)` (src/unnamed/part_000:327-345); `sessionId`
stands for the fresh `uuidv4()`. -/
def createSession (st : SMap) (userId : String) (sessionId : String)
    (now : Int) : CreateResult × SMap :=
  (⟨sessionId, now, now⟩,
   mapSet st sessionId
     { userId := userId, startTime := now, lastActiveTime := now,
       interactions := 0, memoryIds := [], timeContext := now })

/-- The `updates` object of `updateSession`: one optional field per session
field; `some` models the key being present.  A supplied `lastActiveTime` is
overwritten by the later `lastActiveTime: Date.now()` spread entry, so it is
never read. -/
structure SessionUpdates where
  userId : Option String := none
  startTime : Option Int := none
  lastActiveTime : Option Int := none
  interactions : Option Int := none
  memoryIds : Option (List String) := none
deriving DecidableEq

/-- Embedding of `updateSession(sessionId, updates)` (src/unnamed/part_000:347-367):
spread of `updates` over the session, `lastActiveTime` and `timeContext`
refreshed, and `interactions` incremented only when `updates` has no
`interactions` key (`!updates.hasOwnProperty('interactions')`). -/
def updateSession (st : SMap) (sessionId : String) (u : SessionUpdates)
    (now : Int) : Option Session × SMap :=
  match mlookup sessionId st with
  | none => (none, st)
  | some s =>
    let merged : Session :=
      { userId := u.userId.getD s.userId,
        startTime := u.startTime.getD s.startTime,
        lastActiveTime := now,
        interactions := u.interactions.getD s.interactions,
        memoryIds := u.memoryIds.getD s.memoryIds,
        timeContext := now }
    let updated : Session :=
      if u.interactions = none then
        { merged with interactions := merged.interactions + 1 }
      else merged
    (some updated, mapSet st sessionId updated)

/-- Return value of `getSession` (src/unnamed/part_000:369-383): the record
augmented with the elapsed duration (modelled by its milliseconds, of which
the other duration fields are pure functions), the current time context and
the session's pending reminders. -/
structure SessionView where
  session : Session
  durationMillis : Int
  currentTime : Int
  pendingReminders : List Reminder
deriving DecidableEq

/-- Embedding of `getSession(sessionId)` (src/unnamed/part_000:369-383); reads only. -/
def getSession (st : SMap) (rm : RMap) (sessionId : String) (now : Int) :
    Option SessionView :=
  match mlookup sessionId st with
  | none => none
  | some s =>
    some { session := s, durationMillis := now - s.startTime,
           currentTime := now,
           pendingReminders := getPendingReminders rm sessionId now }

/-- The `sessionSummary` object built by `endSession`; `duration` (the
`humanReadable` rendering by moment's `humanize`) is modelled by the elapsed
milliseconds it is computed from. -/
structure SessionSummary where
  sessionId : String
  userId : String
  startTime : Int
  endTime : Int
  durationMillis : Int
  interactions : Int
  memoryIds : List String
deriving DecidableEq

/-- Result of `endSession` in src/unnamed/part_000: the summary on the happy
path, or the `{ sessionId, error, success: false }` object built by the
catch branch. -/
inductive EndResult where
  | summary (s : SessionSummary)
  | storeError (sessionId : String) (error : String)
deriving DecidableEq

/-- Embedding of `endSession(sessionId)` (src/unnamed/part_000:385-434).  `store` is the
outcome of the awaited `memoryManager.storeConversation` call as seen by
this function (`.error e` when the await rejects, landing in the catch
branch).  Both branches delete the session from `activeSessions`; the
reminders of the session are cleared before the store call. -/
def endSession (st : SMap) (rm : RMap) (sessionId : String) (now : Int)
    (store : Except String Unit) : Option EndResult × SMap × RMap :=
  match mlookup sessionId st with
  | none => (none, st, rm)
  | some s =>
    let rm2 := clearSessionReminders rm sessionId
    match store with
    | .ok _ =>
      (some (.summary
        { sessionId := sessionId, userId := s.userId, startTime := s.startTime,
          endTime := now, durationMillis := now - s.startTime,
          interactions := s.interactions, memoryIds := s.memoryIds }),
       mapDelete st sessionId, rm2)
    | .error e =>
      (some (.storeError sessionId e), mapDelete st sessionId, rm2)

/-- Embedding of `endSession(sessionId)` of the src/memory-manager.js variant (lines
227-268): on a store failure the catch branch logs and rethrows (`throw
error`), so the call yields an exception and the session is NOT deleted;
`.ok none` is the `null` returned for an unknown id. -/
def endSessionQ (st : SMap) (sessionId : String) (now : Int)
    (store : Except String Unit) :
    Except String (Option SessionSummary) × SMap :=
  match mlookup sessionId st with
  | none => (.ok none, st)
  | some s =>
    match store with
    | .ok _ =>
      (.ok (some
        { sessionId := sessionId, userId := s.userId, startTime := s.startTime,
          endTime := now, durationMillis := now - s.startTime,
          interactions := s.interactions, memoryIds := s.memoryIds }),
       mapDelete st sessionId)
    | .error e => (.error e, st)

/-
  HTTP layer checks relevant to duration validation
  (src/unnamed/part_001:216-236 and 426-450).
-/

/-- JS falsiness of an optional string parameter (absent or empty). -/
def jsFalsyStr : Option String → Bool
  | none => true
  | some s => s.isEmpty

/-- JS falsiness of an optional numeric parameter (absent or zero). -/
def jsFalsyInt : Option Int → Bool
  | none => true
  | some n => n == 0

/-- The `/api/create-delay` endpoint (src/unnamed/part_001:426-450):
`if (!sessionId || !delaySeconds)` answers 400 before any mutation,
otherwise `createDelay` runs. -/
def apiCreateDelay (m : DMap) (sessionId : Option String)
    (delaySeconds : Option Int) (now : Int) : Except String Delay × DMap :=
  if jsFalsyStr sessionId || jsFalsyInt delaySeconds then
    (.error "Missing required parameters", m)
  else
    let r := createDelay m (sessionId.getD "") (delaySeconds.getD 0) now
    (.ok r.1, r.2)

/-- The `/api/set-reminder` endpoint (src/unnamed/part_001:216-236):
`if (!sessionId || !userId || !task || !durationInSeconds)` answers 400
before any mutation, otherwise `setReminder` runs. -/
def apiSetReminder (rm : RMap) (sessionId userId task : Option String)
    (durationInSeconds : Option Int) (reminderId : String) (now : Int) :
    Except String Reminder × RMap :=
  if jsFalsyStr sessionId || jsFalsyStr userId || jsFalsyStr task ||
      jsFalsyInt durationInSeconds then
    (.error "Missing required parameters", rm)
  else
    let r := setReminder rm (sessionId.getD "") (userId.getD "")
      (task.getD "") (durationInSeconds.getD 0) reminderId now
    (.ok r.1, r.2)

/-
  Trace machinery for the delay tracker (claim C6) and the session registry
  (claim C4).
-/

/-- Operations of the delay tracker, each stamped with the wall-clock
instant at which it runs. -/
inductive DOp where
  | create (sessionId : String) (delaySeconds : Int) (t : Int)
  | hasA (sessionId : String) (t : Int)
  | getR (sessionId : String) (t : Int)
  | clear (sessionId : String)

/-- State effect of one delay-tracker operation. -/
def dStep (m : DMap) : DOp → DMap
  | .create sid d t => (createDelay m sid d t).2
  | .hasA sid t => (hasActiveDelay m sid t).2
  | .getR sid t => (getRemainingDelayTime m sid t).2
  | .clear sid => (clearDelay m sid).2

/-- Run a sequence of delay-tracker operations. -/
def dRun : DMap → List DOp → DMap
  | m, [] => m
  | m, op :: ops => dRun (dStep m op) ops

/-- The session's stored delay record does not currently count as active:
absent, already flipped inactive, or past its `endTime` at instant `t`. -/
def notActiveAt (m : DMap) (sid : String) (t : Int) : Prop :=
  ∀ d, mlookup sid m = some d → d.isActive = false ∨ d.endTime ≤ t

/-- Whether an operation is a `createDelay` for the given session. -/
def notCreateFor (sid : String) : DOp → Prop
  | .create s _ _ => s ≠ sid
  | _ => True

/-- Registry operations (src/unnamed/part_000 `sessionManager`), each
stamped with its wall-clock instant; `endS` carries the store outcome. -/
inductive RegOp where
  | create (userId sessionId : String) (now : Int)
  | update (sessionId : String) (u : SessionUpdates) (now : Int)
  | getS (sessionId : String) (now : Int)
  | endS (sessionId : String) (now : Int) (store : Except String Unit)

/-- State effect of one registry operation on the session and reminder maps. -/
def regStep (s : SMap × RMap) : RegOp → SMap × RMap
  | .create uid sid now => ((createSession s.1 uid sid now).2, s.2)
  | .update sid u now => ((updateSession s.1 sid u now).2, s.2)
  | .getS _ _ => s
  | .endS sid now store =>
    let r := endSession s.1 s.2 sid now store
    (r.2.1, r.2.2)

/-- Run a sequence of registry operations. -/
def regRun : SMap × RMap → List RegOp → SMap × RMap
  | s, [] => s
  | s, op :: ops => regRun (regStep s op) ops

/-- An operation preserves the append-only discipline on `memoryIds` in the
given pre-state: session ids allocated by `createSession` are fresh
(`uuidv4()`), and an `updateSession` that supplies a `memoryIds` value
extends the stored list (as the repository's only call site does:
`memoryIds: [...session.memoryIds, result.id]`,
src/unnamed/part_001:139-141). -/
def appendOnlyOp (st : SMap) : RegOp → Prop
  | .create _ sid _ => mlookup sid st = none
  | .update sid u _ =>
    ∀ l, u.memoryIds = some l → ∀ s, mlookup sid st = some s →
      s.memoryIds <+: l
  | _ => True

/-- The discipline along a whole trace, each operation judged in the state
it actually runs in. -/
def appendOnlyTrace : SMap × RMap → List RegOp → Prop
  | _, [] => True
  | s, op :: ops => appendOnlyOp s.1 op ∧ appendOnlyTrace (regStep s op) ops

/-- Whether a registry operation is a `createSession` allocating this id. -/
def createsId (sid : String) : RegOp → Prop
  | .create _ s _ => s = sid
  | _ => False

/-- Concrete records used by closed counterexamples and witnesses. -/
def demoSession : Session :=
  { userId := "u1", startTime := 0, lastActiveTime := 0, interactions := 3,
    memoryIds := ["m1"], timeContext := 0 }

/-- A concrete reminder record for closed witnesses. -/
def demoReminder : Reminder :=
  { id := "r1", sessionId := "s1", userId := "u1", task := "check rice",
    createdAt := 0, reminderTime := 0, durationInSeconds := 1,
    isCompleted := false, wasTriggered := false }

/-- Every record stored under this reminder id is completed and untriggered
(the state `completeReminder` leaves when it runs before the timer fires). -/
def SuppressedAt (rid : String) (m : RMap) : Prop :=
  ∀ p ∈ m, p.1 = rid → p.2.isCompleted = true ∧ p.2.wasTriggered = false

/-- A concrete delay record for closed witnesses: still active, expiring at
instant 2500. -/
def demoDelay : Delay :=
  { sessionId := "s1", delaySeconds := 2, startTime := 500, endTime := 2500,
    isActive := true }

/- ===================== Lemmas and claim theorems ===================== -/

lemma mlookup_map_update {α : Type} (k : String) (v : α) :
    ∀ m : List (String × α), (mlookup k m).isSome = true →
      mlookup k (m.map (fun p => if p.1 = k then (k, v) else p)) = some v := by
  intro m
  induction m with
  | nil => intro h; simp [mlookup] at h
  | cons p ps ih =>
    intro h
    by_cases hp : p.1 = k
    · simp [mlookup, hp]
    · simp only [mlookup, hp, if_false, List.map_cons, if_neg hp] at h ⊢
      exact ih h

lemma mlookup_append_self {α : Type} (k : String) (v : α) :
    ∀ m : List (String × α), mlookup k m = none →
      mlookup k (m ++ [(k, v)]) = some v := by
  intro m
  induction m with
  | nil => intro _; simp [mlookup]
  | cons p ps ih =>
    intro h
    by_cases hp : p.1 = k
    · simp [mlookup, hp] at h
    · simp only [mlookup, hp, if_false, List.cons_append, if_neg hp] at h ⊢
      exact ih h

lemma mlookup_mapSet_self {α : Type} (m : List (String × α)) (k : String) (v : α) :
    mlookup k (mapSet m k v) = some v := by
  cases hm : mlookup k m with
  | some w =>
    simp only [mapSet, hm]
    exact mlookup_map_update k v m (by simp [hm])
  | none =>
    simp only [mapSet, hm]
    exact mlookup_append_self k v m hm

lemma mlookup_mapSet_ne {α : Type} (m : List (String × α)) (k k' : String) (v : α)
    (hne : k' ≠ k) : mlookup k' (mapSet m k v) = mlookup k' m := by
  cases hm : mlookup k m with
  | some w =>
    simp only [mapSet, hm]
    clear hm
    induction m with
    | nil => simp
    | cons p ps ih =>
      by_cases hp : p.1 = k
      · have hpk : ¬ (k = k') := fun h => hne h.symm
        simp only [List.map_cons, if_pos hp, mlookup, hpk, if_false, ih]
        have : ¬ (p.1 = k') := by rw [hp]; exact hpk
        simp [this]
      · simp only [List.map_cons, if_neg hp, mlookup, ih]
  | none =>
    simp only [mapSet, hm]
    clear hm
    induction m with
    | nil =>
      have : ¬ (k = k') := fun h => hne h.symm
      simp [mlookup, this]
    | cons p ps ih =>
      by_cases hp : p.1 = k'
      · simp [mlookup, hp]
      · simp only [List.cons_append, mlookup, hp, if_false]
        exact ih

lemma mlookup_mem {α : Type} (k : String) (v : α) :
    ∀ m : List (String × α), mlookup k m = some v → (k, v) ∈ m := by
  intro m
  induction m with
  | nil => intro h; simp [mlookup] at h
  | cons p ps ih =>
    intro h
    by_cases hp : p.1 = k
    · simp only [mlookup, hp, if_true] at h
      have hv : p.2 = v := Option.some.inj h
      have hpkv : p = (k, v) := Prod.ext hp hv
      rw [← hpkv]
      exact List.mem_cons_self _ _
    · simp only [mlookup, hp, if_false] at h
      exact List.mem_cons_of_mem _ (ih h)

lemma mem_mapSet {α : Type} {m : List (String × α)} {k : String} {v : α} {p : String × α}
    (h : p ∈ mapSet m k v) : p = (k, v) ∨ p ∈ m := by
  cases hm : mlookup k m with
  | some w =>
    simp only [mapSet, hm] at h
    rcases List.mem_map.mp h with ⟨q, hq, hqe⟩
    by_cases hqk : q.1 = k
    · left; rw [← hqe, if_pos hqk]
    · right; rw [← hqe, if_neg hqk]; exact hq
  | none =>
    simp only [mapSet, hm] at h
    rcases List.mem_append.mp h with h1 | h2
    · right; exact h1
    · left; simpa using h2

lemma mlookup_mapDelete_self {α : Type} (k : String) :
    ∀ m : List (String × α), mlookup k (mapDelete m k) = none := by
  intro m
  induction m with
  | nil => simp [mapDelete, mlookup]
  | cons p ps ih =>
    by_cases hp : p.1 = k
    · simpa [mapDelete, hp] using ih
    · simpa [mapDelete, hp, mlookup] using ih

lemma mlookup_mapDelete_ne {α : Type} (k k' : String) (hne : k' ≠ k) :
    ∀ m : List (String × α), mlookup k' (mapDelete m k) = mlookup k' m := by
  intro m
  induction m with
  | nil => simp [mapDelete, mlookup]
  | cons p ps ih =>
    by_cases hp : p.1 = k
    · have hnk : ¬ (p.1 = k') := by rw [hp]; exact fun h => hne h.symm
      rw [show mapDelete (p :: ps) k = mapDelete ps k from by simp [mapDelete, hp]]
      rw [ih]
      simp [mlookup, hnk]
    · rw [show mapDelete (p :: ps) k = p :: mapDelete ps k from by
        simp [mapDelete, hp]]
      by_cases hp' : p.1 = k'
      · simp [mlookup, hp']
      · simp [mlookup, hp', ih]

lemma mem_mapDelete {α : Type} {k : String} {p : String × α} :
    ∀ {m : List (String × α)}, p ∈ mapDelete m k → p ∈ m := by
  intro m
  induction m with
  | nil => intro h; simp [mapDelete] at h
  | cons q qs ih =>
    intro h
    by_cases hq : q.1 = k
    · simp only [mapDelete, hq, if_true] at h
      exact List.mem_cons_of_mem _ (ih h)
    · simp only [mapDelete, hq, if_false, List.mem_cons] at h
      rcases h with h | h
      · exact h ▸ List.mem_cons_self _ _
      · exact List.mem_cons_of_mem _ (ih h)

/-- Any delay record readable after a `hasActiveDelay` call either was
already in the map or has `isActive = false`. -/
lemma hasActiveDelay_snd (m : DMap) (s : String) (t : Int) (k : String) (d' : Delay)
    (h : mlookup k (hasActiveDelay m s t).2 = some d') :
    mlookup k m = some d' ∨ d'.isActive = false := by
  unfold hasActiveDelay at h
  cases hm : mlookup s m with
  | none => simp only [hm] at h; exact Or.inl h
  | some d =>
    simp only [hm] at h
    by_cases ha : d.isActive = false
    · rw [if_pos ha] at h; exact Or.inl h
    · rw [if_neg ha] at h
      by_cases he : d.endTime ≤ t
      · rw [if_pos he] at h
        by_cases hk : k = s
        · subst hk
          rw [mlookup_mapSet_self] at h
          right
          rw [← Option.some.inj h]
        · rw [mlookup_mapSet_ne _ _ _ _ hk] at h
          exact Or.inl h
      · rw [if_neg he] at h; exact Or.inl h

/-- Same statement for `getRemainingDelayTime`, whose state update is the
same lazy-expiry flip. -/
lemma getRemainingDelayTime_snd (m : DMap) (s : String) (t : Int) (k : String)
    (d' : Delay) (h : mlookup k (getRemainingDelayTime m s t).2 = some d') :
    mlookup k m = some d' ∨ d'.isActive = false := by
  unfold getRemainingDelayTime at h
  cases hm : mlookup s m with
  | none => simp only [hm] at h; exact Or.inl h
  | some d =>
    simp only [hm] at h
    by_cases ha : d.isActive = false
    · rw [if_pos ha] at h; exact Or.inl h
    · rw [if_neg ha] at h
      by_cases he : d.endTime ≤ t
      · rw [if_pos he] at h
        by_cases hk : k = s
        · subst hk
          rw [mlookup_mapSet_self] at h
          right
          rw [← Option.some.inj h]
        · rw [mlookup_mapSet_ne _ _ _ _ hk] at h
          exact Or.inl h
      · rw [if_neg he] at h; exact Or.inl h

/-- Records surviving a `clearDelay` were already present. -/
lemma clearDelay_snd (m : DMap) (s : String) (k : String) (d' : Delay)
    (h : mlookup k (clearDelay m s).2 = some d') : mlookup k m = some d' := by
  unfold clearDelay at h
  cases hm : mlookup s m with
  | none => simp only [hm] at h; exact h
  | some d =>
    simp only [hm] at h
    by_cases hk : k = s
    · subst hk; rw [mlookup_mapDelete_self] at h; cases h
    · rw [mlookup_mapDelete_ne _ _ hk] at h; exact h

/-- A `createDelay` for another session does not touch this session's record. -/
lemma createDelay_snd_ne (m : DMap) (s : String) (d : Int) (t : Int) (k : String)
    (hk : k ≠ s) : mlookup k (createDelay m s d t).2 = mlookup k m := by
  unfold createDelay
  exact mlookup_mapSet_ne _ _ _ _ hk

lemma findSome?_eq_none_of_all {α β : Type} (f : α → Option β) :
    ∀ l : List α, (∀ a ∈ l, f a = none) → l.findSome? f = none := by
  intro l
  induction l with
  | nil => intro _; rfl
  | cons a l ih =>
    intro h
    have ha : f a = none := h a (List.mem_cons_self _ _)
    rw [List.findSome?_cons, ha]
    exact ih (fun x hx => h x (List.mem_cons_of_mem _ hx))

/-- C7: `parseReminder "remind me in 10 minutes to check rice"` detects a
reminder with `durationSeconds = 600` and `task = "check rice"`; in
general the captured amount N is converted by `convertToSeconds` as
second→N, minute→N×60, hour→N×3600 for every unit word of the pattern. -/
theorem parseReminder_ten_minutes_check_rice :
    parseReminder "remind me in 10 minutes to check rice" =
      { hasReminder := true, durationSeconds := 600, task := "check rice" } ∧
    ∀ n : Int,
      convertToSeconds n "second" = n ∧ convertToSeconds n "seconds" = n ∧
      convertToSeconds n "minute" = n * 60 ∧
      convertToSeconds n "minutes" = n * 60 ∧
      convertToSeconds n "hour" = n * 60 * 60 ∧
      convertToSeconds n "hours" = n * 60 * 60 := by
  exact ⟨by decide, fun n => ⟨rfl, rfl, rfl, rfl, rfl, rfl⟩⟩

/-- C8: the three supported phrasings each parse to `delaySeconds = 5`, and
any text matched by none of the delay patterns yields `hasDelay = false`
with `delaySeconds = 0` (parsing is total, so it never fails). -/
theorem processDelayInstructions_spec :
    processDelayInstructions "wait for 5 seconds" =
      { hasDelay := true, delaySeconds := 5 } ∧
    processDelayInstructions "pause for 5 seconds" =
      { hasDelay := true, delaySeconds := 5 } ∧
    processDelayInstructions "5 seconds wait karo" =
      { hasDelay := true, delaySeconds := 5 } ∧
    ∀ text : String,
      (∀ pat ∈ allDelayPatterns, delayCapture pat text = none) →
      processDelayInstructions text = { hasDelay := false, delaySeconds := 0 } := by
  refine ⟨by decide, by decide, by decide, fun text h => ?_⟩
  unfold processDelayInstructions
  rw [findSome?_eq_none_of_all _ _ h]

/-- Witness for C8 at a concrete non-matching input. -/
theorem processDelayInstructions_spec_witness :
    processDelayInstructions "namaste ji" = { hasDelay := false, delaySeconds := 0 } :=
  processDelayInstructions_spec.2.2.2 "namaste ji" (by decide)

/-- C9: `completeReminder` returns false and mutates nothing on an unknown
id; on an existing id it sets `isCompleted` and returns true, and a second
call on the same id again returns true with `isCompleted` still true. -/
theorem completeReminder_idempotent (m : RMap) (rid : String) :
    (mlookup rid m = none → completeReminder m rid = (false, m)) ∧
    (∀ r, mlookup rid m = some r →
      (completeReminder m rid).1 = true ∧
      mlookup rid (completeReminder m rid).2 =
        some { r with isCompleted := true } ∧
      (completeReminder (completeReminder m rid).2 rid).1 = true ∧
      mlookup rid (completeReminder (completeReminder m rid).2 rid).2 =
        some { r with isCompleted := true }) := by
  constructor
  · intro h
    unfold completeReminder
    simp only [h]
  · intro r h
    have e1 : completeReminder m rid =
        (true, mapSet m rid { r with isCompleted := true }) := by
      unfold completeReminder
      simp only [h]
    have l1 : mlookup rid (mapSet m rid { r with isCompleted := true }) =
        some { r with isCompleted := true } := mlookup_mapSet_self ..
    have e2 : completeReminder (mapSet m rid { r with isCompleted := true }) rid =
        (true, mapSet (mapSet m rid { r with isCompleted := true }) rid
          { r with isCompleted := true }) := by
      unfold completeReminder
      simp only [l1]
    refine ⟨by rw [e1], by rw [e1]; exact l1, by rw [e1, e2], ?_⟩
    rw [e1, e2]
    exact mlookup_mapSet_self ..

/-- Witness for C9 on a concrete stored reminder. -/
theorem completeReminder_idempotent_witness :
    (completeReminder [("r1", demoReminder)] "r1").1 = true ∧
    mlookup "r1" (completeReminder (completeReminder [("r1", demoReminder)] "r1").2 "r1").2 =
      some { demoReminder with isCompleted := true } := by
  have h := (completeReminder_idempotent [("r1", demoReminder)] "r1").2
      demoReminder (by decide)
  exact ⟨h.1, h.2.2.2⟩

/-- C2 counterexample: zero and negative durations are not rejected by
`createDelay` or `setReminder` — each call stores a record (so there is no
`ValidationFailure` before state mutation). -/
theorem zero_negative_durations_store_records :
    mlookup "s1" (createDelay [] "s1" 0 1000).2 =
      some { sessionId := "s1", delaySeconds := 0, startTime := 1000,
             endTime := 1000, isActive := true } ∧
    mlookup "s1" (createDelay [] "s1" (-5) 1000).2 =
      some { sessionId := "s1", delaySeconds := -5, startTime := 1000,
             endTime := -4000, isActive := true } ∧
    mlookup "r1" (setReminder [] "s1" "u1" "check rice" 0 "r1" 1000).2 =
      some { id := "r1", sessionId := "s1", userId := "u1", task := "check rice",
             createdAt := 1000, reminderTime := 1000, durationInSeconds := 0,
             isCompleted := false, wasTriggered := false } := by
  refine ⟨by decide, by decide, by decide⟩

/-- C2 amended: rejection-before-mutation happens only at the HTTP
endpoints, whose JS-falsy parameter check catches a zero duration (and
missing fields) but lets negative durations through; the library functions
`createDelay` and `setReminder` perform no duration validation and store a
record for every duration. -/
theorem duration_validation_spec (m : DMap) (rm : RMap) (sid uid task : String)
    (d now : Int) (rid : String) :
    (apiCreateDelay m (some sid) (some 0) now =
      (.error "Missing required parameters", m)) ∧
    (apiSetReminder rm (some sid) (some uid) (some task) (some 0) rid now =
      (.error "Missing required parameters", rm)) ∧
    (mlookup sid (createDelay m sid d now).2 =
      some { sessionId := sid, delaySeconds := d, startTime := now,
             endTime := now + d * 1000, isActive := true }) ∧
    (mlookup rid (setReminder rm sid uid task d rid now).2 =
      some { id := rid, sessionId := sid, userId := uid, task := task,
             createdAt := now + d * 1000, reminderTime := now + d * 1000,
             durationInSeconds := d, isCompleted := false,
             wasTriggered := false }) ∧
    (sid.isEmpty = false → (d == 0) = false →
      apiCreateDelay m (some sid) (some d) now =
        (.ok (createDelay m sid d now).1, (createDelay m sid d now).2)) := by
  refine ⟨?_, ?_, ?_, ?_, ?_⟩
  · simp [apiCreateDelay, jsFalsyInt]
  · simp [apiSetReminder, jsFalsyInt]
  · unfold createDelay
    exact mlookup_mapSet_self ..
  · unfold setReminder
    exact mlookup_mapSet_self ..
  · intro hs hd
    simp [apiCreateDelay, jsFalsyStr, jsFalsyInt, hs, hd]

/-- Witness for C2 amended at concrete inputs. -/
theorem duration_validation_spec_witness :
    apiCreateDelay [] (some "s1") (some 0) 7 =
      (.error "Missing required parameters", []) ∧
    apiCreateDelay [] (some "s1") (some (-5)) 7 =
      (.ok (createDelay [] "s1" (-5) 7).1, (createDelay [] "s1" (-5) 7).2) := by
  have h := duration_validation_spec [] [] "s1" "u1" "check rice" (-5) 7 "r1"
  exact ⟨h.1, h.2.2.2.2 (by decide) (by decide)⟩

/-- C1 counterexample (the src/memory-manager.js `endSession` variant cited
by the claim): with a live session and a failing store call, the call
yields the thrown error and the session is NOT removed from the live map. -/
theorem endSessionQ_keeps_session_on_store_failure :
    (endSessionQ [("s1", demoSession)] "s1" 10 (.error "store down")).1 =
      .error "store down" ∧
    mlookup "s1" (endSessionQ [("s1", demoSession)] "s1" 10 (.error "store down")).2 =
      some demoSession := by
  exact ⟨rfl, by decide⟩

/-- C1 amended: for the part_000 session manager, `endSession` on an
unknown id returns null and changes nothing; on a live session it always
deletes the session from the live map, returning the summary when the store
call succeeds and the `{ sessionId, error, success:false }` result when it
fails — the call never propagates the store failure. -/
theorem endSession_spec (st : SMap) (rm : RMap) (sid : String) (now : Int)
    (store : Except String Unit) :
    (mlookup sid st = none → endSession st rm sid now store = (none, st, rm)) ∧
    (∀ s, mlookup sid st = some s →
      mlookup sid (endSession st rm sid now store).2.1 = none ∧
      (store = .ok () →
        (endSession st rm sid now store).1 = some (.summary
          { sessionId := sid, userId := s.userId, startTime := s.startTime,
            endTime := now, durationMillis := now - s.startTime,
            interactions := s.interactions, memoryIds := s.memoryIds })) ∧
      (∀ e, store = .error e →
        (endSession st rm sid now store).1 = some (.storeError sid e))) := by
  constructor
  · intro h
    unfold endSession
    simp only [h]
  · intro s h
    unfold endSession
    simp only [h]
    cases store with
    | ok u =>
      cases u
      exact ⟨mlookup_mapDelete_self _ _, fun _ => rfl,
             fun e he => Except.noConfusion he⟩
    | error e =>
      refine ⟨mlookup_mapDelete_self _ _, fun hco => Except.noConfusion hco,
              fun e2 he => ?_⟩
      cases he
      rfl

/-- Witness for C1 amended: a live session with a failing store is still
removed and the result is the error-annotated object. -/
theorem endSession_spec_witness :
    mlookup "s1" (endSession [("s1", demoSession)] [] "s1" 50 (.error "down")).2.1 =
      none ∧
    (endSession [("s1", demoSession)] [] "s1" 50 (.error "down")).1 =
      some (.storeError "s1" "down") := by
  have h := (endSession_spec [("s1", demoSession)] [] "s1" 50 (.error "down")).2
      demoSession (by decide)
  exact ⟨h.1, h.2.2 "down" rfl⟩

/-- C3: a reminder created with `durationSeconds = 0` has its timer
scheduled with a 0 ms delay, so the timer fires immediately after
creation; the fired record has `wasTriggered = true` and, being
uncompleted with `reminderTime = createdAt`, it is in the result of the
next `getPendingReminders` read for its session at any instant `now ≥ t`. -/
theorem zero_duration_reminder_triggers (rm : RMap) (sid uid task rid : String)
    (t now : Int) (ht : t ≤ now) :
    (∃ r2, mlookup rid
        (fireReminder (setReminder rm sid uid task 0 rid t).2 rid).1 = some r2 ∧
      r2.wasTriggered = true ∧ r2.isCompleted = false ∧ r2.reminderTime = t) ∧
    ∃ r2 ∈ getPendingReminders
        (fireReminder (setReminder rm sid uid task 0 rid t).2 rid).1 sid now,
      r2.id = rid ∧ r2.task = task := by
  have l1 : mlookup rid (setReminder rm sid uid task 0 rid t).2 =
      some { id := rid, sessionId := sid, userId := uid, task := task,
             createdAt := t + 0 * 1000, reminderTime := t + 0 * 1000,
             durationInSeconds := 0, isCompleted := false,
             wasTriggered := false } := by
    unfold setReminder
    exact mlookup_mapSet_self ..
  have hf : (fireReminder (setReminder rm sid uid task 0 rid t).2 rid).1 =
      mapSet (setReminder rm sid uid task 0 rid t).2 rid
        { id := rid, sessionId := sid, userId := uid, task := task,
          createdAt := t + 0 * 1000, reminderTime := t + 0 * 1000,
          durationInSeconds := 0, isCompleted := false,
          wasTriggered := true } := by
    unfold fireReminder
    simp only [l1]
    rfl
  have l2 : mlookup rid
      (fireReminder (setReminder rm sid uid task 0 rid t).2 rid).1 =
      some { id := rid, sessionId := sid, userId := uid, task := task,
             createdAt := t + 0 * 1000, reminderTime := t + 0 * 1000,
             durationInSeconds := 0, isCompleted := false,
             wasTriggered := true } := by
    rw [hf]
    exact mlookup_mapSet_self ..
  have ht0 : t + 0 * 1000 = t := by ring
  refine ⟨⟨_, l2, rfl, rfl, ht0⟩, ?_⟩
  refine ⟨{ id := rid, sessionId := sid, userId := uid, task := task,
            createdAt := t + 0 * 1000, reminderTime := t + 0 * 1000,
            durationInSeconds := 0, isCompleted := false,
            wasTriggered := true }, ?_, rfl, rfl⟩
  unfold getPendingReminders
  refine List.mem_filter.mpr
    ⟨List.mem_map.mpr ⟨(rid, _), mlookup_mem _ _ _ l2, rfl⟩, ?_⟩
  simpa using ht

/-- Witness for C3 at concrete inputs. -/
theorem zero_duration_reminder_triggers_witness :
    ∃ r2 ∈ getPendingReminders
        (fireReminder (setReminder [] "s1" "u1" "check rice" 0 "r1" 100).2 "r1").1
        "s1" 100,
      r2.id = "r1" ∧ r2.task = "check rice" :=
  (zero_duration_reminder_triggers [] "s1" "u1" "check rice" "r1" 100 100
    (by decide)).2

/-- C5: with no delay record `getRemainingDelayTime` returns 0; with a
stored record — under the reachability invariant that a record observed
with `isActive = false` already has `endTime ≤ now` (lazy expiry only flips
at expired instants and the clock is non-decreasing) — the call returns 0
exactly when `now ≥ endTime`, persisting `isActive = false` in that case,
and otherwise returns a strictly positive value equal to
`ceil((endTime - now) / 1000)`, characterised by the two bounding
inequalities of the integer ceiling. -/
theorem getRemainingDelayTime_spec (m : DMap) (sid : String) (now : Int)
    (hinv : ∀ d, mlookup sid m = some d → d.isActive = false →
      d.endTime ≤ now) :
    (mlookup sid m = none → (getRemainingDelayTime m sid now).1 = 0) ∧
    (∀ d, mlookup sid m = some d →
      ((getRemainingDelayTime m sid now).1 = 0 ↔ d.endTime ≤ now) ∧
      (d.endTime ≤ now →
        ∀ d2, mlookup sid (getRemainingDelayTime m sid now).2 = some d2 →
          d2.isActive = false) ∧
      (now < d.endTime →
        0 < (getRemainingDelayTime m sid now).1 ∧
        1000 * ((getRemainingDelayTime m sid now).1 - 1) < d.endTime - now ∧
        d.endTime - now ≤ 1000 * (getRemainingDelayTime m sid now).1)) := by
  constructor
  · intro h
    unfold getRemainingDelayTime
    simp only [h]
  · intro d h
    unfold getRemainingDelayTime
    simp only [h]
    by_cases ha : d.isActive = false
    · rw [if_pos ha]
      have hexp : d.endTime ≤ now := hinv d h ha
      refine ⟨iff_of_true rfl hexp, ?_, fun hlt => absurd hexp (not_le.mpr hlt)⟩
      intro _ d2 hd2
      cases Option.some.inj (h.symm.trans hd2)
      exact ha
    · rw [if_neg ha]
      by_cases he : d.endTime ≤ now
      · rw [if_pos he]
        refine ⟨iff_of_true rfl he, ?_, fun hlt => absurd he (not_le.mpr hlt)⟩
        intro _ d2 hd2
        rw [mlookup_mapSet_self] at hd2
        cases Option.some.inj hd2
        rfl
      · rw [if_neg he]
        dsimp only
        have hlt : now < d.endTime := lt_of_not_le he
        have hg : ((d.endTime - now).toNat : Int) = d.endTime - now :=
          Int.toNat_of_nonneg (by omega)
        have hdm := Nat.div_add_mod ((d.endTime - now).toNat + 999) 1000
        have hmod : ((d.endTime - now).toNat + 999) % 1000 < 1000 :=
          Nat.mod_lt _ (by decide)
        have hg1 : 1 ≤ (d.endTime - now).toNat := by omega
        constructor
        · constructor
          · intro hz
            exfalso
            have hzn : (((d.endTime - now).toNat + 999) / 1000 : Nat) = 0 := by
              exact_mod_cast hz
            omega
          · intro hco
            exact absurd hco he
        · refine ⟨fun hco _ hd2 => absurd hco he, fun _ => ?_⟩
          refine ⟨?_, ?_, ?_⟩ <;>
            · push_cast
              omega

/-- Witness for C5 on a concrete active delay (1500 ms remaining at instant
1000, so the result is the positive ceiling of 1500/1000). -/
theorem getRemainingDelayTime_spec_witness :
    0 < (getRemainingDelayTime [("s1", demoDelay)] "s1" 1000).1 ∧
    1000 * ((getRemainingDelayTime [("s1", demoDelay)] "s1" 1000).1 - 1) <
      demoDelay.endTime - 1000 ∧
    demoDelay.endTime - 1000 ≤
      1000 * (getRemainingDelayTime [("s1", demoDelay)] "s1" 1000).1 := by
  have hinv : ∀ d, mlookup "s1" [("s1", demoDelay)] = some d →
      d.isActive = false → d.endTime ≤ 1000 := by
    intro d hd hf
    have e : mlookup "s1" [("s1", demoDelay)] = some demoDelay := by decide
    cases Option.some.inj (e.symm.trans hd)
    exact absurd hf (by decide)
  have h := (getRemainingDelayTime_spec [("s1", demoDelay)] "s1" 1000 hinv).2
      demoDelay (by decide)
  exact h.2.2 (by decide)

lemma hasActiveDelay_false_iff (m : DMap) (sid : String) (t : Int) :
    (hasActiveDelay m sid t).1 = false ↔ notActiveAt m sid t := by
  unfold hasActiveDelay notActiveAt
  cases hm : mlookup sid m with
  | none =>
    simp only [hm]
    constructor
    · intro _ d hd
      cases hd
    · intro _
      trivial
  | some d =>
    simp only [hm]
    by_cases ha : d.isActive = false
    · rw [if_pos ha]
      constructor
      · intro _ d2 hd2
        cases Option.some.inj hd2
        exact Or.inl ha
      · intro _
        rfl
    · rw [if_neg ha]
      by_cases he : d.endTime ≤ t
      · rw [if_pos he]
        constructor
        · intro _ d2 hd2
          cases Option.some.inj hd2
          exact Or.inr he
        · intro _
          rfl
      · rw [if_neg he]
        constructor
        · intro hco
          exact Bool.noConfusion hco
        · intro hna
          rcases hna d rfl with h1 | h2
          · exact absurd h1 ha
          · exact absurd h2 he

lemma notActiveAt_mono {m : DMap} {sid : String} {t t2 : Int} (h : t ≤ t2)
    (hna : notActiveAt m sid t) : notActiveAt m sid t2 := by
  intro d hd
  rcases hna d hd with h1 | h2
  · exact Or.inl h1
  · exact Or.inr (le_trans h2 h)

lemma dStep_preserves_notActive {m : DMap} {sid : String} {t : Int} (op : DOp)
    (hop : notCreateFor sid op) (hna : notActiveAt m sid t) :
    notActiveAt (dStep m op) sid t := by
  intro d2 hd2
  cases op with
  | create s dl tc =>
    simp only [dStep] at hd2
    rw [createDelay_snd_ne m s dl tc sid (Ne.symm hop)] at hd2
    exact hna d2 hd2
  | hasA s tc =>
    simp only [dStep] at hd2
    rcases hasActiveDelay_snd m s tc sid d2 hd2 with h1 | h2
    · exact hna d2 h1
    · exact Or.inl h2
  | getR s tc =>
    simp only [dStep] at hd2
    rcases getRemainingDelayTime_snd m s tc sid d2 hd2 with h1 | h2
    · exact hna d2 h1
    · exact Or.inl h2
  | clear s =>
    simp only [dStep] at hd2
    exact hna d2 (clearDelay_snd m s sid d2 hd2)

lemma dStep_preserves_inactive {m : DMap} {sid : String} (op : DOp)
    (hop : notCreateFor sid op)
    (hin : ∀ d, mlookup sid m = some d → d.isActive = false) :
    ∀ d2, mlookup sid (dStep m op) = some d2 → d2.isActive = false := by
  intro d2 hd2
  cases op with
  | create s dl tc =>
    simp only [dStep] at hd2
    rw [createDelay_snd_ne m s dl tc sid (Ne.symm hop)] at hd2
    exact hin d2 hd2
  | hasA s tc =>
    simp only [dStep] at hd2
    rcases hasActiveDelay_snd m s tc sid d2 hd2 with h1 | h2
    · exact hin d2 h1
    · exact h2
  | getR s tc =>
    simp only [dStep] at hd2
    rcases getRemainingDelayTime_snd m s tc sid d2 hd2 with h1 | h2
    · exact hin d2 h1
    · exact h2
  | clear s =>
    simp only [dStep] at hd2
    exact hin d2 (clearDelay_snd m s sid d2 hd2)

lemma dRun_preserves_notActive (sid : String) (t : Int) :
    ∀ (ops : List DOp) (m : DMap), (∀ op ∈ ops, notCreateFor sid op) →
      notActiveAt m sid t → notActiveAt (dRun m ops) sid t := by
  intro ops
  induction ops with
  | nil => intro m _ hna; exact hna
  | cons op ops ih =>
    intro m hops hna
    exact ih (dStep m op) (fun o ho => hops o (List.mem_cons_of_mem _ ho))
      (dStep_preserves_notActive op (hops op (List.mem_cons_self _ _)) hna)

lemma dRun_preserves_inactive (sid : String) :
    ∀ (ops : List DOp) (m : DMap), (∀ op ∈ ops, notCreateFor sid op) →
      (∀ d, mlookup sid m = some d → d.isActive = false) →
      ∀ d2, mlookup sid (dRun m ops) = some d2 → d2.isActive = false := by
  intro ops
  induction ops with
  | nil => intro m _ hin; exact hin
  | cons op ops ih =>
    intro m hops hin
    exact ih (dStep m op) (fun o ho => hops o (List.mem_cons_of_mem _ ho))
      (dStep_preserves_inactive op (hops op (List.mem_cons_self _ _)) hin)

/-- C6: once `hasActiveDelay` has returned false for a session at instant
`t0`, it returns false at every instant `t1 ≥ t0` after any sequence of
delay-tracker operations containing no `createDelay` for that session
(whatever instants those operations run at); moreover a record of that
session whose `isActive` is already false never has it reset to true by
such a sequence. -/
theorem hasActiveDelay_monotone (m : DMap) (sid : String) (t0 t1 : Int)
    (ops : List DOp) (h0 : (hasActiveDelay m sid t0).1 = false)
    (hops : ∀ op ∈ ops, notCreateFor sid op) (ht : t0 ≤ t1) :
    (hasActiveDelay (dRun m ops) sid t1).1 = false ∧
    (∀ d, mlookup sid m = some d → d.isActive = false →
      ∀ d2, mlookup sid (dRun m ops) = some d2 → d2.isActive = false) := by
  constructor
  · have hna : notActiveAt m sid t0 := (hasActiveDelay_false_iff m sid t0).mp h0
    exact (hasActiveDelay_false_iff _ sid t1).mpr
      (notActiveAt_mono ht (dRun_preserves_notActive sid t0 ops m hops hna))
  · intro d hd hin
    refine dRun_preserves_inactive sid ops m hops ?_
    intro d0 hd0
    cases Option.some.inj (hd.symm.trans hd0)
    exact hin

/-- Witness for C6: an expired-delay session stays inactive across a
trace that creates a delay for a different session and polls this one. -/
theorem hasActiveDelay_monotone_witness :
    (hasActiveDelay (dRun [("s1", { demoDelay with isActive := false })]
        [DOp.create "s2" 5 3000, DOp.hasA "s1" 3500]) "s1" 4000).1 = false := by
  have h := hasActiveDelay_monotone [("s1", { demoDelay with isActive := false })]
      "s1" 3000 4000 [DOp.create "s2" 5 3000, DOp.hasA "s1" 3500]
      (by decide) ?hops (by decide)
  · exact h.1
  case hops =>
    intro op hop
    cases hop with
    | head => exact (by decide : ("s2" : String) ≠ "s1")
    | tail _ h2 =>
      cases h2 with
      | head => trivial
      | tail _ h3 => cases h3

/-- C4 counterexample: `updateSession` merges arbitrary update objects over
the record, so an update carrying `memoryIds: []` replaces the stored
`["m1"]` with `[]` — the previous value is not a prefix of the new one and
the list has shrunk. -/
theorem updateSession_can_shrink_memoryIds :
    (mlookup "s1" (updateSession (updateSession (createSession [] "u1" "s1" 0).2
        "s1" { memoryIds := some ["m1"] } 1).2
        "s1" { memoryIds := some [] } 2).2).map Session.memoryIds =
      some [] ∧
    (mlookup "s1" (updateSession (createSession [] "u1" "s1" 0).2
        "s1" { memoryIds := some ["m1"] } 1).2).map Session.memoryIds =
      some ["m1"] ∧
    ¬ (["m1"] : List String) <+: ([] : List String) := by
  refine ⟨by decide, by decide, ?_⟩
  intro hco
  rcases hco with ⟨t, ht⟩
  simp at ht

lemma regStep_memoryIds (s : SMap × RMap) (op : RegOp)
    (hop : appendOnlyOp s.1 op) :
    ∀ sid sess sess2, mlookup sid s.1 = some sess →
      mlookup sid (regStep s op).1 = some sess2 →
      sess.memoryIds <+: sess2.memoryIds := by
  intro sid sess sess2 h1 h2
  cases op with
  | create uid sid2 now =>
    simp only [regStep, createSession] at h2
    by_cases hk : sid = sid2
    · subst hk
      rw [hop] at h1
      cases h1
    · rw [mlookup_mapSet_ne _ _ _ _ hk] at h2
      cases Option.some.inj (h1.symm.trans h2)
      exact List.prefix_refl _
  | update sid2 u now =>
    simp only [regStep, updateSession] at h2
    cases hm : mlookup sid2 s.1 with
    | none =>
      simp only [hm] at h2
      cases Option.some.inj (h1.symm.trans h2)
      exact List.prefix_refl _
    | some s0 =>
      simp only [hm] at h2
      by_cases hk : sid = sid2
      · subst hk
        cases Option.some.inj (h1.symm.trans hm)
        rw [mlookup_mapSet_self] at h2
        cases Option.some.inj h2
        by_cases hi : u.interactions = none
        · rw [if_pos hi]
          cases hmem : u.memoryIds with
          | none => simp [hmem]
          | some l =>
            simp only [hmem, Option.getD_some]
            exact hop l hmem sess h1
        · rw [if_neg hi]
          cases hmem : u.memoryIds with
          | none => simp [hmem]
          | some l =>
            simp only [hmem, Option.getD_some]
            exact hop l hmem sess h1
      · rw [mlookup_mapSet_ne _ _ _ _ hk] at h2
        cases Option.some.inj (h1.symm.trans h2)
        exact List.prefix_refl _
  | getS sid2 now =>
    cases Option.some.inj (h1.symm.trans h2)
    exact List.prefix_refl _
  | endS sid2 now store =>
    simp only [regStep, endSession] at h2
    cases hm : mlookup sid2 s.1 with
    | none =>
      simp only [hm] at h2
      cases Option.some.inj (h1.symm.trans h2)
      exact List.prefix_refl _
    | some s0 =>
      simp only [hm] at h2
      by_cases hk : sid = sid2
      · subst hk
        cases store with
        | ok u =>
          simp only [mlookup_mapDelete_self] at h2
          cases h2
        | error e =>
          simp only [mlookup_mapDelete_self] at h2
          cases h2
      · cases store with
        | ok u =>
          rw [mlookup_mapDelete_ne _ _ hk] at h2
          cases Option.some.inj (h1.symm.trans h2)
          exact List.prefix_refl _
        | error e =>
          rw [mlookup_mapDelete_ne _ _ hk] at h2
          cases Option.some.inj (h1.symm.trans h2)
          exact List.prefix_refl _

lemma regStep_none (s : SMap × RMap) (op : RegOp) (sid : String)
    (hnc : ¬ createsId sid op) (h : mlookup sid s.1 = none) :
    mlookup sid (regStep s op).1 = none := by
  cases op with
  | create uid sid2 now =>
    have hk : sid ≠ sid2 := fun he => hnc (he ▸ rfl)
    simp only [regStep, createSession]
    rw [mlookup_mapSet_ne _ _ _ _ hk]
    exact h
  | update sid2 u now =>
    simp only [regStep, updateSession]
    cases hm : mlookup sid2 s.1 with
    | none =>
      simp only [hm]
      exact h
    | some s0 =>
      simp only [hm]
      by_cases hk : sid = sid2
      · subst hk
        rw [hm] at h
        cases h
      · rw [mlookup_mapSet_ne _ _ _ _ hk]
        exact h
  | getS sid2 now => exact h
  | endS sid2 now store =>
    simp only [regStep, endSession]
    cases hm : mlookup sid2 s.1 with
    | none =>
      simp only [hm]
      exact h
    | some s0 =>
      simp only [hm]
      by_cases hk : sid = sid2
      · subst hk
        cases store with
        | ok u => exact mlookup_mapDelete_self _ _
        | error e => exact mlookup_mapDelete_self _ _
      · cases store with
        | ok u =>
          rw [mlookup_mapDelete_ne _ _ hk]
          exact h
        | error e =>
          rw [mlookup_mapDelete_ne _ _ hk]
          exact h

lemma regRun_none (sid : String) :
    ∀ (ops : List RegOp) (s : SMap × RMap), (∀ op ∈ ops, ¬ createsId sid op) →
      mlookup sid s.1 = none → mlookup sid (regRun s ops).1 = none := by
  intro ops
  induction ops with
  | nil => intro s _ h; exact h
  | cons op ops ih =>
    intro s hnc h
    exact ih (regStep s op) (fun o ho => hnc o (List.mem_cons_of_mem _ ho))
      (regStep_none s op sid (hnc op (List.mem_cons_self _ _)) h)

/-- C4 amended: along any trace of registry operations in which every
`updateSession` that explicitly supplies a `memoryIds` value supplies an
extension of the stored list (as the repository's only call site does) and
session ids are never re-allocated, a session's stored `memoryIds` only
grows: the earlier value is a prefix of any later stored value.  Without
that restriction the claim is false, since `updateSession` replaces
`memoryIds` wholesale with whatever the update object carries. -/
theorem memoryIds_append_only (s : SMap × RMap) (ops : List RegOp) (sid : String)
    (htrace : appendOnlyTrace s ops)
    (hfresh : ∀ op ∈ ops, ¬ createsId sid op) :
    ∀ sess sess2, mlookup sid s.1 = some sess →
      mlookup sid (regRun s ops).1 = some sess2 →
      sess.memoryIds <+: sess2.memoryIds := by
  induction ops generalizing s with
  | nil =>
    intro sess sess2 h1 h2
    cases Option.some.inj (h1.symm.trans h2)
    exact List.prefix_refl _
  | cons op ops ih =>
    intro sess sess2 h1 h2
    simp only [regRun] at h2
    rcases htrace with ⟨hop, htr⟩
    cases hmid : mlookup sid (regStep s op).1 with
    | none =>
      have hnone : mlookup sid (regRun (regStep s op) ops).1 = none :=
        regRun_none sid ops (regStep s op)
          (fun o ho => hfresh o (List.mem_cons_of_mem _ ho)) hmid
      rw [hnone] at h2
      cases h2
    | some mid =>
      exact List.IsPrefix.trans
        (regStep_memoryIds s op hop sid sess mid h1 hmid)
        (ih (regStep s op) htr
          (fun o ho => hfresh o (List.mem_cons_of_mem _ ho)) mid sess2 hmid h2)

/-- Witness for C4 amended: one call-site-style append update. -/
theorem memoryIds_append_only_witness :
    ∃ sess2, mlookup "s1" (regRun ([("s1", demoSession)], [])
        [RegOp.update "s1" { memoryIds := some ["m1", "m2"] } 5]).1 =
      some sess2 ∧ demoSession.memoryIds <+: sess2.memoryIds := by
  refine ⟨{ userId := "u1", startTime := 0, lastActiveTime := 5,
            interactions := 4, memoryIds := ["m1", "m2"], timeContext := 5 },
          by decide, ?_⟩
  refine memoryIds_append_only ([("s1", demoSession)], [])
    [RegOp.update "s1" { memoryIds := some ["m1", "m2"] } 5] "s1"
    ⟨?_, trivial⟩ ?_ demoSession _ (by decide) (by decide)
  · intro l hl sess hs
    cases Option.some.inj hl
    have e : mlookup "s1" [("s1", demoSession)] = some demoSession := by decide
    cases Option.some.inj (e.symm.trans hs)
    exact ⟨["m2"], rfl⟩
  · intro op hop
    cases hop with
    | head => exact fun hF => hF
    | tail _ h3 => cases h3

lemma mlookup_none_not_mem {α : Type} {m : List (String × α)} {k : String}
    (h : mlookup k m = none) : ∀ p ∈ m, p.1 ≠ k := by
  induction m with
  | nil => intro p hp; cases hp
  | cons q qs ih =>
    intro p hp
    by_cases hq : q.1 = k
    · rw [show mlookup k (q :: qs) = some q.2 from by simp [mlookup, hq]] at h
      cases h
    · rw [show mlookup k (q :: qs) = mlookup k qs from by simp [mlookup, hq]] at h
      cases hp with
      | head => exact hq
      | tail _ hp2 => exact ih h p hp2

lemma mem_mapSet_eq {α : Type} {m : List (String × α)} {k : String} {v : α}
    {p : String × α} (h : p ∈ mapSet m k v) (hpk : p.1 = k) : p = (k, v) := by
  cases hm : mlookup k m with
  | some w =>
    simp only [mapSet, hm] at h
    rcases List.mem_map.mp h with ⟨q, hq, hqe⟩
    by_cases hqk : q.1 = k
    · rw [← hqe, if_pos hqk]
    · rw [← hqe, if_neg hqk] at hpk
      exact absurd hpk hqk
  | none =>
    simp only [mapSet, hm] at h
    rcases List.mem_append.mp h with h1 | h2
    · exact absurd hpk (mlookup_none_not_mem hm p h1)
    · simpa using h2

lemma mem_clearSessionReminders {sid : String} {p : String × Reminder} :
    ∀ {m : RMap}, p ∈ clearSessionReminders m sid → p ∈ m := by
  intro m
  induction m with
  | nil => intro h; cases h
  | cons q qs ih =>
    intro h
    by_cases hq : q.2.sessionId = sid
    · rw [show clearSessionReminders (q :: qs) sid = clearSessionReminders qs sid
          from by simp [clearSessionReminders, hq]] at h
      exact List.mem_cons_of_mem _ (ih h)
    · rw [show clearSessionReminders (q :: qs) sid =
            q :: clearSessionReminders qs sid
          from by simp [clearSessionReminders, hq]] at h
      cases h with
      | head => exact List.mem_cons_self _ _
      | tail _ h2 => exact List.mem_cons_of_mem _ (ih h2)

lemma rStepOut_suppressed {m : RMap} {rid : String} (op : ROp)
    (hno : ¬ setsId rid op) (hs : SuppressedAt rid m) (hk : KeysOk m) :
    SuppressedAt rid (rStepOut m op).1 ∧ KeysOk (rStepOut m op).1 ∧
      ∀ r, (rStepOut m op).2 = some r → r.id ≠ rid := by
  cases op with
  | setR sid uid task d rid2 now =>
    have hne : rid2 ≠ rid := hno
    simp only [rStepOut, setReminder]
    refine ⟨?_, ?_, fun r hr => by cases hr⟩
    · intro p hp hpk
      rcases mem_mapSet hp with he | hm2
      · rw [he] at hpk
        exact absurd hpk hne
      · exact hs p hm2 hpk
    · intro p hp
      rcases mem_mapSet hp with he | hm2
      · rw [he]
      · exact hk p hm2
  | fire rid2 =>
    simp only [rStepOut]
    unfold fireReminder
    cases hm : mlookup rid2 m with
    | none => exact ⟨hs, hk, fun r hr => by cases hr⟩
    | some r0 =>
      simp only [hm]
      have hid : r0.id = rid2 := hk (rid2, r0) (mlookup_mem _ _ _ hm)
      by_cases hc : r0.isCompleted = false
      · rw [if_pos hc]
        have hne : rid2 ≠ rid := by
          intro he
          subst he
          have := (hs (rid2, r0) (mlookup_mem _ _ _ hm) rfl).1
          exact Bool.noConfusion (this.symm.trans hc)
        refine ⟨?_, ?_, ?_⟩
        · intro p hp hpk
          rcases mem_mapSet hp with he | hm2
          · rw [he] at hpk
            exact absurd hpk hne
          · exact hs p hm2 hpk
        · intro p hp
          rcases mem_mapSet hp with he | hm2
          · rw [he]
            exact hid
          · exact hk p hm2
        · intro r hr
          cases Option.some.inj hr
          intro he
          exact hne (hid.symm.trans he)
      · rw [if_neg hc]
        exact ⟨hs, hk, fun r hr => by cases hr⟩
  | complete rid2 =>
    simp only [rStepOut]
    unfold completeReminder
    cases hm : mlookup rid2 m with
    | none => exact ⟨hs, hk, fun r hr => by cases hr⟩
    | some r0 =>
      simp only [hm]
      have hid : r0.id = rid2 := hk (rid2, r0) (mlookup_mem _ _ _ hm)
      refine ⟨?_, ?_, fun r hr => by cases hr⟩
      · intro p hp hpk
        rcases mem_mapSet hp with he | hm2
        · rw [he] at hpk ⊢
          refine ⟨rfl, ?_⟩
          have h2 := hs (rid2, r0) (mlookup_mem _ _ _ hm) hpk
          exact h2.2
        · exact hs p hm2 hpk
      · intro p hp
        rcases mem_mapSet hp with he | hm2
        · rw [he]
          exact hid
        · exact hk p hm2
  | clearS sid =>
    simp only [rStepOut]
    refine ⟨?_, ?_, fun r hr => by cases hr⟩
    · intro p hp hpk
      exact hs p (mem_clearSessionReminders hp) hpk
    · intro p hp
      exact hk p (mem_clearSessionReminders hp)

lemma rRunOut_suppressed {rid : String} :
    ∀ (ops : List ROp) (m : RMap), (∀ op ∈ ops, ¬ setsId rid op) →
      SuppressedAt rid m → KeysOk m →
      SuppressedAt rid (rRunOut m ops).1 ∧ KeysOk (rRunOut m ops).1 ∧
        ∀ r ∈ (rRunOut m ops).2, r.id ≠ rid := by
  intro ops
  induction ops with
  | nil =>
    intro m _ hs hk
    exact ⟨hs, hk, fun r hr => by cases hr⟩
  | cons op ops ih =>
    intro m hno hs hk
    have hstep := rStepOut_suppressed op (hno op (List.mem_cons_self _ _)) hs hk
    have hrest := ih (rStepOut m op).1
      (fun o ho => hno o (List.mem_cons_of_mem _ ho)) hstep.1 hstep.2.1
    refine ⟨hrest.1, hrest.2.1, ?_⟩
    intro r hr
    simp only [rRunOut] at hr
    rcases List.mem_append.mp hr with h1 | h2
    · cases ho : (rStepOut m op).2 with
      | none =>
        rw [ho] at h1
        cases h1
      | some r0 =>
        rw [ho] at h1
        simp only [Option.toList_some, List.mem_singleton] at h1
        rw [h1]
        exact hstep.2.2 r0 ho
    · exact hrest.2.2 r h2

lemma getPendingReminders_excludes {m : RMap} {rid : String}
    (hs : SuppressedAt rid m) (hk : KeysOk m) :
    ∀ s now r, r ∈ getPendingReminders m s now → r.id ≠ rid := by
  intro s now r hr hrid
  unfold getPendingReminders at hr
  rcases List.mem_filter.mp hr with ⟨hmem, hpred⟩
  rcases List.mem_map.mp hmem with ⟨p, hp, hpe⟩
  have hp1 : p.1 = rid := by
    rw [← hrid, ← hpe]
    exact (hk p hp).symm
  have hPs := hs p hp hp1
  rw [hpe] at hPs
  simp only [Bool.and_eq_true] at hpred
  exact Bool.noConfusion ((hpred.2).symm.trans hPs.2)

/-- C10: if `completeReminder(reminderId)` runs before the scheduled timer
fires, then along any later sequence of scheduler events that does not
re-allocate the same reminder id (uuid freshness), the record's
`wasTriggered` stays false, the `onTrigger` callback is never invoked with
that reminder, and the reminder never appears in any `getPendingReminders`
read — completion before triggering permanently suppresses the Triggered
transition. -/
theorem completed_before_fire_suppresses (m0 : RMap) (sid uid task : String)
    (d : Int) (rid : String) (t : Int) (ops : List ROp)
    (hkeys : KeysOk m0)
    (hno : ∀ op ∈ ops, ¬ setsId rid op) :
    (∀ r, mlookup rid (rRunOut (completeReminder
        (setReminder m0 sid uid task d rid t).2 rid).2 ops).1 = some r →
      r.wasTriggered = false) ∧
    (∀ r ∈ (rRunOut (completeReminder
        (setReminder m0 sid uid task d rid t).2 rid).2 ops).2, r.id ≠ rid) ∧
    (∀ s now r, r ∈ getPendingReminders (rRunOut (completeReminder
        (setReminder m0 sid uid task d rid t).2 rid).2 ops).1 s now →
      r.id ≠ rid) := by
  have hm1 : (setReminder m0 sid uid task d rid t).2 = mapSet m0 rid
      { id := rid, sessionId := sid, userId := uid, task := task,
        createdAt := t + d * 1000, reminderTime := t + d * 1000,
        durationInSeconds := d, isCompleted := false,
        wasTriggered := false } := rfl
  have hl1 : mlookup rid (setReminder m0 sid uid task d rid t).2 =
      some { id := rid, sessionId := sid, userId := uid, task := task,
             createdAt := t + d * 1000, reminderTime := t + d * 1000,
             durationInSeconds := d, isCompleted := false,
             wasTriggered := false } := by
    rw [hm1]
    exact mlookup_mapSet_self ..
  have hm2 : (completeReminder (setReminder m0 sid uid task d rid t).2 rid).2 =
      mapSet (setReminder m0 sid uid task d rid t).2 rid
        { id := rid, sessionId := sid, userId := uid, task := task,
          createdAt := t + d * 1000, reminderTime := t + d * 1000,
          durationInSeconds := d, isCompleted := true,
          wasTriggered := false } := by
    unfold completeReminder
    simp only [hl1]
  have hk1 : KeysOk (setReminder m0 sid uid task d rid t).2 := by
    rw [hm1]
    intro p hp
    rcases mem_mapSet hp with he | hm3
    · rw [he]
    · exact hkeys p hm3
  have hk2 : KeysOk (completeReminder
      (setReminder m0 sid uid task d rid t).2 rid).2 := by
    rw [hm2]
    intro p hp
    rcases mem_mapSet hp with he | hm3
    · rw [he]
    · exact hk1 p hm3
  have hs2 : SuppressedAt rid (completeReminder
      (setReminder m0 sid uid task d rid t).2 rid).2 := by
    rw [hm2]
    intro p hp hpk
    rw [mem_mapSet_eq hp hpk]
    exact ⟨rfl, rfl⟩
  have hfin := rRunOut_suppressed ops
    (completeReminder (setReminder m0 sid uid task d rid t).2 rid).2 hno hs2 hk2
  refine ⟨?_, hfin.2.2, getPendingReminders_excludes hfin.1 hfin.2.1⟩
  intro r hr
  exact (hfin.1 (rid, r) (mlookup_mem _ _ _ hr) rfl).2

/-- Witness for C10: completing the reminder before its timer fires leaves
the stored record untriggered after the timer does fire. -/
theorem completed_before_fire_suppresses_witness :
    ∃ r, mlookup "r1" (rRunOut (completeReminder
        (setReminder [] "s1" "u1" "check rice" 1 "r1" 0).2 "r1").2
        [ROp.fire "r1"]).1 = some r ∧ r.wasTriggered = false := by
  have h := completed_before_fire_suppresses [] "s1" "u1" "check rice" 1 "r1" 0
      [ROp.fire "r1"] (fun p hp => by cases hp) ?hno
  case hno =>
    intro op hop
    cases hop with
    | head => exact fun hF => hF
    | tail _ h3 => cases h3
  refine ⟨{ id := "r1", sessionId := "s1", userId := "u1", task := "check rice",
            createdAt := 1000, reminderTime := 1000, durationInSeconds := 1,
            isCompleted := true, wasTriggered := false }, by decide, ?_⟩
  exact h.1 _ (by decide)
